import Mathlib

/-!
Shallow embedding of the `commander` crate (`src/lib.rs`): a command-line
option registry plus an argument parser and typed lookup store.

Modelling conventions:
* Rust `&str` / `String` become Lean `String`; Rust byte-lexicographic
  `str::cmp` coincides with Lean's character-lexicographic `String` order
  because UTF-8 byte order agrees with code-point order.
* `Vec::sort_by` is a stable sort; it is embedded as `List.mergeSort`,
  which is stable.
* `HashMap<String, CmdArgument>` is embedded as an association list with
  replace-on-insert semantics (`storeInsert` / `storeGet`), which keeps
  keys unique exactly as a hash map does.
* A Rust panic (`unwrap` on a failed numeric parse, indexing an empty
  vector) is embedded as `Option.none`: a `none` result of `parseLoop`
  or `init_with` means the Rust code panics and parsing does not
  complete.
* `eprintln!` diagnostics are collected in an auxiliary list of emitted
  lines, returned alongside the store.
* An `f32` value obtained from `str::parse::<f32>` is represented by the
  raw accepted literal string: no claim inspects the numeric value of a
  float, only whether the literal parses (`isValidF32Lit`, which embeds
  the syntax accepted by Rust's float `FromStr`) and the variant tag of
  the stored value.
-/

/-- Value type of a registered option (`CmdOptionValueType` in `lib.rs`). -/
inductive CmdOptionValueType where
  | String
  | Number
  | Float
  | NoValue
deriving DecidableEq, Repr

/-- Stored argument value (`CmdArgumentValue` in `lib.rs`). `Number` holds a
signed 32-bit integer (modelled as `Int`, with the range enforced by
`parseI32`); `Float` holds the raw accepted literal (see module docstring). -/
inductive CmdArgumentValue where
  | String (s : String)
  | Number (n : Int)
  | Float (lit : String)
  | NoValue
deriving DecidableEq, Repr

/-- The variant tag of a stored value, for comparison with a declared
`CmdOptionValueType`. -/
def CmdArgumentValue.tag : CmdArgumentValue → CmdOptionValueType
  | .String _ => .String
  | .Number _ => .Number
  | .Float _ => .Float
  | .NoValue => .NoValue

/-- A stored argument (`CmdArgument` in `lib.rs`). -/
structure CmdArgument where
  option : String
  value : CmdArgumentValue
deriving DecidableEq, Repr

/-- A registered option (`CmdLineOption` in `lib.rs`). -/
structure CmdLineOption where
  shortform : String
  longform : String
  description : String
  value_type : CmdOptionValueType
deriving DecidableEq, Repr

/-- The comparator passed to the sort in `add_option`:
`a.shortform.cmp(&b.shortform)` as a `≤` test. -/
def optionLE (a b : CmdLineOption) : Bool :=
  decide (a.shortform ≤ b.shortform)

/-- Embeds `self.options.push(option); self.options.sort_by(...)` from
`add_option`, at the level of the option list. -/
def addOptionList (opts : List CmdLineOption) (o : CmdLineOption) : List CmdLineOption :=
  (opts ++ [o]).mergeSort optionLE

/-- The argument store: association list with unique keys, embedding
`HashMap<String, CmdArgument>`. -/
abbrev Store := List (String × CmdArgument)

/-- Embeds `HashMap::get`. -/
def storeGet : Store → String → Option CmdArgument
  | [], _ => none
  | (k', a) :: rest, k => if k' = k then some a else storeGet rest k

/-- Embeds `HashMap::insert`: replace the entry with the same key if present,
otherwise add a new entry. -/
def storeInsert : Store → String → CmdArgument → Store
  | [], k, a => [(k, a)]
  | (k', a') :: rest, k, a =>
      if k' = k then (k, a) :: rest else (k', a') :: storeInsert rest k a

/-- The `Commander` struct: registered options plus the argument store. -/
structure Commander where
  options : List CmdLineOption
  args : Store
deriving DecidableEq, Repr

/-- Embeds `Commander::new`. -/
def Commander.new : Commander := ⟨[], []⟩

/-- Embeds `Commander::add_option` (fluent builder, returns the updated value). -/
def Commander.add_option (c : Commander) (shortform longform description : String)
    (value_type : CmdOptionValueType) : Commander :=
  { c with options := addOptionList c.options ⟨shortform, longform, description, value_type⟩ }

/-- Embeds `Commander::option_count`. -/
def Commander.option_count (c : Commander) : Nat := c.options.length

/-- Embeds `Commander::arg_count`. -/
def Commander.arg_count (c : Commander) : Nat := c.args.length

/-- The predicate in `get_supported_option`:
`(!is_longform && o.shortform == option) || (is_longform && o.longform == option)`. -/
def matchesOption (option : String) (is_longform : Bool) (o : CmdLineOption) : Bool :=
  (!is_longform && o.shortform == option) || (is_longform && o.longform == option)

/-- Embeds `Commander::get_supported_option`, at the level of the option list:
linear scan (`Iterator::find`) over the current (sorted) options. -/
def getSupportedOption (opts : List CmdLineOption) (option : String)
    (is_longform : Bool) : Option CmdLineOption :=
  opts.find? (matchesOption option is_longform)

/-- Embeds `Commander::get_supported_option`. -/
def Commander.get_supported_option (c : Commander) (option : String)
    (is_longform : Bool) : Option CmdLineOption :=
  getSupportedOption c.options option is_longform

/-- Embeds `Commander::get_number_option`. -/
def Commander.get_number_option (c : Commander) (option : String)
    (is_longform : Bool) : Option Int :=
  match c.get_supported_option option is_longform with
  | some o =>
      match storeGet c.args o.shortform with
      | some arg =>
          match arg.value with
          | .Number v => some v
          | _ => none
      | none => none
  | none => none

/-- Embeds `Commander::get_float_option` (the returned float is represented by the
raw stored literal, see module docstring). -/
def Commander.get_float_option (c : Commander) (option : String)
    (is_longform : Bool) : Option String :=
  match c.get_supported_option option is_longform with
  | some o =>
      match storeGet c.args o.shortform with
      | some arg =>
          match arg.value with
          | .Float v => some v
          | _ => none
      | none => none
  | none => none

/-- Embeds `Commander::get_string_option`. -/
def Commander.get_string_option (c : Commander) (option : String)
    (is_longform : Bool) : Option String :=
  match c.get_supported_option option is_longform with
  | some o =>
      match storeGet c.args o.shortform with
      | some arg =>
          match arg.value with
          | .String v => some v
          | _ => none
      | none => none
  | none => none

/-- The bracketed type tag pushed by `help` for each value type, including
the leading tab pair (note the source spells the `NoValue` tag
`"[no paramater]"`). -/
def typeTag : CmdOptionValueType → String
  | .String => "\t\t[string]"
  | .Float => "\t\t[Float]"
  | .Number => "\t\t[Number]"
  | .NoValue => "\t\t[no paramater]"

/-- Embeds `Commander::help`: it starts from the header line and pushes, per option,
the long/short forms, the type tag, and the description with a trailing
line break, exactly as the three `push_str` calls in the source. -/
def Commander.help (c : Commander) : String :=
  c.options.foldl
    (fun output option =>
      ((output ++ ("\t--" ++ option.longform ++ ", -" ++ option.shortform))
          ++ typeTag option.value_type)
        ++ ("\t\t" ++ option.description ++ "\n"))
    "Options available:\n"

/-- Embeds `str::parse::<i32>`: optional sign, at least one ASCII digit,
value within the signed 32-bit range; anything else fails. -/
def parseI32 (s : String) : Option Int :=
  let signAndDigits : Int × List Char :=
    match s.data with
    | '+' :: r => (1, r)
    | '-' :: r => (-1, r)
    | l => (1, l)
  let sign := signAndDigits.1
  let ds := signAndDigits.2
  if ds ≠ [] ∧ ds.all Char.isDigit then
    let v : Int := sign * (ds.foldl (fun n c => n * 10 + (c.toNat - 48)) 0 : Nat)
    if -2147483648 ≤ v ∧ v ≤ 2147483647 then some v else none
  else none

/-- Strips one optional leading ASCII sign character. -/
def stripSign : List Char → List Char
  | '+' :: r => r
  | '-' :: r => r
  | l => l

/-- Checks an optional exponent part: empty, or `e`/`E`, an optional sign,
and at least one digit. -/
def checkExp (l : List Char) : Bool :=
  match l with
  | [] => true
  | c :: r =>
      (c = 'e' || c = 'E') &&
        (let r2 := stripSign r
         !r2.isEmpty && r2.all Char.isDigit)

/-- Checks a decimal number: `Digit+`, `Digit+ '.' Digit*` or
`Digit* '.' Digit+`, followed by an optional exponent. -/
def checkNumber (l : List Char) : Bool :=
  let d1 := l.takeWhile Char.isDigit
  let r := l.dropWhile Char.isDigit
  match r with
  | '.' :: r2 =>
      let d2 := r2.takeWhile Char.isDigit
      let r3 := r2.dropWhile Char.isDigit
      (!d1.isEmpty || !d2.isEmpty) && checkExp r3
  | _ => !d1.isEmpty && checkExp r

/-- Embeds the syntax accepted by `str::parse::<f32>`: an optional sign,
then `inf`, `infinity` or `nan` (ASCII case-insensitive) or a decimal
number with optional fraction and exponent. A syntactically valid literal
never fails to parse as `f32` (overflow saturates to infinity). -/
def isValidF32Lit (s : String) : Bool :=
  let l := stripSign s.data
  let low := l.map Char.toLower
  low = "inf".data || low = "infinity".data || low = "nan".data || checkNumber l

/-- Embeds `arg.starts_with("--")` in `parse_args`. -/
def isLongTok (s : String) : Bool :=
  "--".data.isPrefixOf s.data

/-- Embeds `arg.starts_with("-")` in `parse_args`. -/
def isShortTok (s : String) : Bool :=
  "-".data.isPrefixOf s.data

/-- Drops the first `n` characters of a string (`&arg[n..]` after a
confirmed one-byte-per-character dash prefix). -/
def strDrop (s : String) (n : Nat) : String :=
  String.mk (s.data.drop n)

/-- The `value` binding in `parse_args`: the token stripped of its flag
prefix when it has one, the token itself otherwise. -/
def tokText (s : String) : String :=
  if isLongTok s then strDrop s 2
  else if isShortTok s then strDrop s 1
  else s

/-- The coercion of a raw value token in `parse_args`: `String` is stored
verbatim, `Number`/`Float` go through `parse().unwrap()` (failure panics,
modelled as `none`); the `NoValue` branch is the source's `unreachable!()`. -/
def coerceValue : CmdOptionValueType → String → Option CmdArgumentValue
  | .String, v => some (.String v)
  | .Number, v => (parseI32 v).map CmdArgumentValue.Number
  | .Float, v => if isValidF32Lit v then some (.Float v) else none
  | .NoValue, _ => none

/-- The `while let Some(arg) = iter.next()` loop of `Commander::parse_args`,
over the remaining tokens. Returns the final store and the emitted
diagnostic lines, or `none` when the Rust code panics on a failed numeric
coercion. -/
def parseLoop (opts : List CmdLineOption) :
    List String → Store → List String → Option (Store × List String)
  | [], store, diags => some (store, diags)
  | arg :: rest, store, diags =>
      if isLongTok arg || isShortTok arg then
        match getSupportedOption opts (tokText arg) (isLongTok arg) with
        | some option =>
            if option.value_type ≠ CmdOptionValueType.NoValue then
              match rest with
              | v :: rest2 =>
                  match coerceValue option.value_type v with
                  | some cv =>
                      parseLoop opts rest2
                        (storeInsert store option.shortform ⟨option.shortform, cv⟩) diags
                  | none => none
              | [] =>
                  parseLoop opts []
                    (storeInsert store option.shortform
                      ⟨option.shortform, CmdArgumentValue.NoValue⟩) diags
            else
              parseLoop opts rest
                (storeInsert store option.shortform
                  ⟨option.shortform, CmdArgumentValue.NoValue⟩) diags
        | none =>
            parseLoop opts rest store
              (diags ++ ["[BAD] O(" ++ (if isLongTok arg then "L" else "S") ++ "): "
                          ++ tokText arg])
      else
        parseLoop opts rest store (diags ++ ["[BAD?] V: " ++ arg])

/-- Embeds `Commander::add_executable_arg`: it stores `args[0]` under the sentinel key
`"__exec__"`; indexing an empty vector panics, modelled as `none`. -/
def addExecutableArg (store : Store) (args : List String) : Option Store :=
  match args with
  | [] => none
  | exe :: _ =>
      some (storeInsert store "__exec__" ⟨"__exec__", CmdArgumentValue.String exe⟩)

/-- Embeds `Commander::init` with an explicit argument list: `add_executable_arg`
followed by `parse_args` (which skips element 0). -/
def Commander.init_with (c : Commander) (args : List String) :
    Option (Commander × List String) :=
  match addExecutableArg c.args args with
  | none => none
  | some store1 =>
      match parseLoop c.options (args.drop 1) store1 [] with
      | none => none
      | some (store2, diags) => some ({ c with args := store2 }, diags)

/-- Builds an option list by a sequence of `add_option` calls starting from
the empty registry. -/
def buildOptions (calls : List CmdLineOption) : List CmdLineOption :=
  calls.foldl addOptionList []

/-- Runs a sequence of `add_option` calls on a fresh `Commander`. -/
def runAdds (calls : List CmdLineOption) : Commander :=
  calls.foldl
    (fun c o => c.add_option o.shortform o.longform o.description o.value_type)
    Commander.new

/-- Number of entries of the store carrying a given key. -/
def countKey (m : Store) (k : String) : Nat :=
  (m.filter (fun p => p.1 == k)).length

/-! Helper lemmas about the store -/

/-- Inserting a key and then looking it up returns the inserted argument. -/
theorem storeGet_storeInsert_self (m : Store) (k : String) (a : CmdArgument) :
    storeGet (storeInsert m k a) k = some a := by
  induction m with
  | nil => simp [storeInsert, storeGet]
  | cons p rest ih =>
      obtain ⟨k', a'⟩ := p
      by_cases h : k' = k <;> simp [storeInsert, storeGet, h, ih]

/-- Every entry of the store after an insert is the inserted pair or an old
entry. -/
theorem mem_storeInsert {m : Store} {k : String} {a : CmdArgument} {p : String × CmdArgument}
    (h : p ∈ storeInsert m k a) : p = (k, a) ∨ p ∈ m := by
  induction m with
  | nil => simpa [storeInsert] using h
  | cons q rest ih =>
      obtain ⟨k', a'⟩ := q
      by_cases hk : k' = k
      · simp [storeInsert, hk] at h
        rcases h with h | h
        · exact Or.inl (by simp [h])
        · exact Or.inr (by simp [h])
      · simp [storeInsert, hk] at h
        rcases h with h | h
        · exact Or.inr (by simp [h])
        · rcases ih h with h' | h'
          · exact Or.inl h'
          · exact Or.inr (by simp [h'])

/-- A successful lookup exhibits a member of the store with the looked-up
key. -/
theorem storeGet_mem {m : Store} {k : String} {a : CmdArgument}
    (h : storeGet m k = some a) : (k, a) ∈ m := by
  induction m with
  | nil => simp [storeGet] at h
  | cons q rest ih =>
      obtain ⟨k', a'⟩ := q
      by_cases hk : k' = k
      · simp [storeGet, hk] at h
        simp [hk, h]
      · simp [storeGet, hk] at h
        simp [ih h]

/-- Inserting a key leaves exactly one entry for it when the store had at
most one. -/
theorem countKey_storeInsert (m : Store) (k : String) (a : CmdArgument) :
    countKey (storeInsert m k a) k = max (countKey m k) 1 := by
  induction m with
  | nil => simp [storeInsert, countKey]
  | cons q rest ih =>
      obtain ⟨k', a'⟩ := q
      by_cases hk : k' = k
      · simp [storeInsert, countKey, hk, List.filter]
      · have hk' : (k' == k) = false := by simp [hk]
        simp [storeInsert, countKey, hk, List.filter, hk'] at ih ⊢
        exact ih

/-- A value produced by `coerceValue` carries the variant tag of the
requested type. -/
theorem coerceValue_tag {t : CmdOptionValueType} {v : String} {cv : CmdArgumentValue}
    (h : coerceValue t v = some cv) : cv.tag = t := by
  cases t with
  | String =>
      simp [coerceValue] at h
      simp [← h, CmdArgumentValue.tag]
  | Number =>
      simp [coerceValue] at h
      obtain ⟨n, _, hn⟩ := h
      simp [← hn, CmdArgumentValue.tag]
  | Float =>
      simp [coerceValue] at h
      simp [← h.2, CmdArgumentValue.tag]
  | NoValue =>
      simp [coerceValue] at h

/-! Claim theorems on single parsing steps -/

/-- C1. If a flag token resolves to a registered option of value type
`Number` (resp. `Float`) and the next token exists but does not parse as a
signed 32-bit integer (resp. 32-bit float), the parse aborts (`unwrap`
panics, modelled as `none`): no state with garbage or `NoValue` for that
option is produced. -/
theorem C1_numeric_coercion_failure_aborts
    (opts : List CmdLineOption) (store : Store) (diags : List String)
    (tok v : String) (rest : List String) (o : CmdLineOption)
    (hflag : (isLongTok tok || isShortTok tok) = true)
    (hres : getSupportedOption opts (tokText tok) (isLongTok tok) = some o)
    (hbad : (o.value_type = CmdOptionValueType.Number ∧ parseI32 v = none) ∨
            (o.value_type = CmdOptionValueType.Float ∧ isValidF32Lit v = false)) :
    parseLoop opts (tok :: v :: rest) store diags = none := by
  have hnv : o.value_type ≠ CmdOptionValueType.NoValue := by
    rcases hbad with ⟨h, _⟩ | ⟨h, _⟩ <;> simp [h]
  have hco : coerceValue o.value_type v = none := by
    rcases hbad with ⟨h, h2⟩ | ⟨h, h2⟩ <;> simp [coerceValue, h, h2]
  simp [parseLoop, hflag, hres, hnv, hco]

/-- C1 witness: a concrete malformed `Number` value aborts the parse. -/
theorem C1_witness :
    (isLongTok "-c" || isShortTok "-c") = true ∧
    getSupportedOption [⟨"c", "count", "d", CmdOptionValueType.Number⟩]
      (tokText "-c") (isLongTok "-c") = some ⟨"c", "count", "d", CmdOptionValueType.Number⟩ ∧
    parseI32 "xx" = none ∧
    parseLoop [⟨"c", "count", "d", CmdOptionValueType.Number⟩] ["-c", "xx"] [] [] = none :=
  ⟨by decide, by decide, by decide,
    C1_numeric_coercion_failure_aborts
      [⟨"c", "count", "d", CmdOptionValueType.Number⟩] [] [] "-c" "xx" []
      ⟨"c", "count", "d", CmdOptionValueType.Number⟩
      (by decide) (by decide) (Or.inl ⟨rfl, by decide⟩)⟩

/-- C2. When a flag resolving to a value-expecting option (`String`,
`Number` or `Float`) is the last token, parsing completes normally
(`some`) and stores an entry under the option's canonical short-form name
tagged `NoValue`. -/
theorem C2_trailing_flag_stores_NoValue
    (opts : List CmdLineOption) (store : Store) (diags : List String)
    (tok : String) (o : CmdLineOption)
    (hflag : (isLongTok tok || isShortTok tok) = true)
    (hres : getSupportedOption opts (tokText tok) (isLongTok tok) = some o)
    (hnv : o.value_type ≠ CmdOptionValueType.NoValue) :
    parseLoop opts [tok] store diags =
      some (storeInsert store o.shortform ⟨o.shortform, CmdArgumentValue.NoValue⟩, diags) ∧
    storeGet (storeInsert store o.shortform ⟨o.shortform, CmdArgumentValue.NoValue⟩)
        o.shortform = some ⟨o.shortform, CmdArgumentValue.NoValue⟩ := by
  constructor
  · simp [parseLoop, hflag, hres, hnv]
  · exact storeGet_storeInsert_self store o.shortform ⟨o.shortform, CmdArgumentValue.NoValue⟩

/-- C2 witness: a trailing `--input` flag of a `String` option yields a
normal parse with a `NoValue` entry under the short form. -/
theorem C2_witness :
    parseLoop [⟨"if", "input", "d", CmdOptionValueType.String⟩] ["--input"] [] [] =
      some ([("if", ⟨"if", CmdArgumentValue.NoValue⟩)], []) ∧
    storeGet [("if", ⟨"if", CmdArgumentValue.NoValue⟩)] "if" =
      some ⟨"if", CmdArgumentValue.NoValue⟩ :=
  (C2_trailing_flag_stores_NoValue
      [⟨"if", "input", "d", CmdOptionValueType.String⟩] [] [] "--input"
      ⟨"if", "input", "d", CmdOptionValueType.String⟩
      (by decide) (by decide) (by decide))

/-- One parse step on a flag token that matches no registered option: one
diagnostic with the long/short marker and the stripped flag text, store
untouched, parsing continues with the next token. -/
theorem parseLoop_unmatched_flag
    (opts : List CmdLineOption) (tok : String) (rest : List String)
    (store : Store) (diags : List String)
    (hflag : (isLongTok tok || isShortTok tok) = true)
    (hres : getSupportedOption opts (tokText tok) (isLongTok tok) = none) :
    parseLoop opts (tok :: rest) store diags =
      parseLoop opts rest store
        (diags ++ ["[BAD] O(" ++ (if isLongTok tok then "L" else "S") ++ "): "
                    ++ tokText tok]) := by
  simp [parseLoop, hflag, hres]

/-- One parse step on a bare token (no leading dash): one stray-value
diagnostic, store untouched, parsing continues with the next token. -/
theorem parseLoop_bare_value
    (opts : List CmdLineOption) (tok : String) (rest : List String)
    (store : Store) (diags : List String)
    (hl : isLongTok tok = false) (hs : isShortTok tok = false) :
    parseLoop opts (tok :: rest) store diags =
      parseLoop opts rest store (diags ++ ["[BAD?] V: " ++ tok]) := by
  simp [parseLoop, hl, hs]

/-- C9. A bare `"-"` is classified as a short-form flag with empty flag
text and a bare `"--"` as a long-form flag with empty flag text; neither
is treated as a bare value, and when no option is registered with an
empty short (resp. long) form, the token produces one unsupported-option
diagnostic and stores nothing. -/
theorem C9_dash_tokens_are_empty_flags :
    isLongTok "-" = false ∧ isShortTok "-" = true ∧ tokText "-" = "" ∧
    isLongTok "--" = true ∧ tokText "--" = "" ∧
    (∀ (opts : List CmdLineOption) (store : Store) (diags rest : List String),
      getSupportedOption opts "" false = none →
      parseLoop opts ("-" :: rest) store diags =
        parseLoop opts rest store (diags ++ ["[BAD] O(S): "])) ∧
    (∀ (opts : List CmdLineOption) (store : Store) (diags rest : List String),
      getSupportedOption opts "" true = none →
      parseLoop opts ("--" :: rest) store diags =
        parseLoop opts rest store (diags ++ ["[BAD] O(L): "])) := by
  refine ⟨by decide, by decide, by decide, by decide, by decide, ?_, ?_⟩
  · intro opts store diags rest h
    have step := parseLoop_unmatched_flag opts "-" rest store diags (by decide)
      (by rw [show tokText "-" = "" from by decide, show isLongTok "-" = false from by decide]
          exact h)
    rw [show "[BAD] O(" ++ (if isLongTok "-" then "L" else "S") ++ "): " ++ tokText "-" =
          "[BAD] O(S): " from by decide] at step
    exact step
  · intro opts store diags rest h
    have step := parseLoop_unmatched_flag opts "--" rest store diags (by decide)
      (by rw [show tokText "--" = "" from by decide, show isLongTok "--" = true from by decide]
          exact h)
    rw [show "[BAD] O(" ++ (if isLongTok "--" then "L" else "S") ++ "): " ++ tokText "--" =
          "[BAD] O(L): " from by decide] at step
    exact step

/-- C9 witness: with an empty registry, `"-"` and `"--"` each emit one
empty-flag-text diagnostic and leave the store untouched. -/
theorem C9_witness :
    parseLoop [] ["-"] [] [] = parseLoop [] [] [] ([] ++ ["[BAD] O(S): "]) ∧
    parseLoop [] ["--"] [] [] = parseLoop [] [] [] ([] ++ ["[BAD] O(L): "]) :=
  ⟨(C9_dash_tokens_are_empty_flags.2.2.2.2.2.1) [] [] [] [] (by decide),
   (C9_dash_tokens_are_empty_flags.2.2.2.2.2.2) [] [] [] [] (by decide)⟩

/-- C4 counterexample: for the unregistered long flag `--zebra` the emitted
diagnostic is `"[BAD] O(L): zebra"` — it carries the stripped flag text,
not the raw token `"--zebra"` the claim prescribes. -/
theorem C4_counterexample :
    parseLoop [] ["--zebra"] [] [] = some ([], ["[BAD] O(L): zebra"]) ∧
    parseLoop [] ["--zebra"] [] [] ≠ some ([], ["[BAD] O(L): --zebra"]) := by
  decide

/-- C4 (amended). An unmatched flag token produces exactly one diagnostic
`"[BAD] O(<L|S>): <stripped flag text>"`, stores nothing and parsing
continues; a bare token produces one `"[BAD?] V: <token>"` line and stores
nothing; and a token matching no registered option never shows up in any
typed getter. -/
theorem C4_unmatched_and_bare_diagnostics :
    (∀ (opts : List CmdLineOption) (tok : String) (rest : List String)
        (store : Store) (diags : List String),
      (isLongTok tok || isShortTok tok) = true →
      getSupportedOption opts (tokText tok) (isLongTok tok) = none →
      parseLoop opts (tok :: rest) store diags =
        parseLoop opts rest store
          (diags ++ ["[BAD] O(" ++ (if isLongTok tok then "L" else "S") ++ "): "
                      ++ tokText tok])) ∧
    (∀ (opts : List CmdLineOption) (tok : String) (rest : List String)
        (store : Store) (diags : List String),
      isLongTok tok = false → isShortTok tok = false →
      parseLoop opts (tok :: rest) store diags =
        parseLoop opts rest store (diags ++ ["[BAD?] V: " ++ tok])) ∧
    (∀ (c : Commander) (tok : String) (f : Bool),
      c.get_supported_option tok f = none →
      c.get_string_option tok f = none ∧ c.get_number_option tok f = none ∧
        c.get_float_option tok f = none) := by
  refine ⟨parseLoop_unmatched_flag, parseLoop_bare_value, ?_⟩
  intro c tok f h
  refine ⟨?_, ?_, ?_⟩ <;>
    simp [Commander.get_string_option, Commander.get_number_option,
      Commander.get_float_option, h]

/-- C4 witness: concrete unmatched long flag, bare token, and getter
lookups of an unregistered flag. -/
theorem C4_witness :
    parseLoop [] ["--zebra"] [] [] =
      parseLoop [] [] [] ([] ++ ["[BAD] O(" ++ (if isLongTok "--zebra" then "L" else "S")
                                  ++ "): " ++ tokText "--zebra"]) ∧
    parseLoop [] ["stray"] [] [] = parseLoop [] [] [] ([] ++ ["[BAD?] V: " ++ "stray"]) ∧
    (Commander.new.get_string_option "z" false = none ∧
      Commander.new.get_number_option "z" false = none ∧
      Commander.new.get_float_option "z" false = none) :=
  ⟨C4_unmatched_and_bare_diagnostics.1 [] "--zebra" [] [] [] (by decide) (by decide),
   C4_unmatched_and_bare_diagnostics.2.1 [] "stray" [] [] [] (by decide) (by decide),
   C4_unmatched_and_bare_diagnostics.2.2 Commander.new "z" false (by decide)⟩

/-- C7. When two flag tokens of one argument sequence (short form, long
form, or a mix) resolve to the same registered value-expecting option and
both value tokens coerce, parsing succeeds, the store afterwards holds
exactly one entry for the option's canonical short-form name, and that
entry carries the value of the second occurrence. -/
theorem C7_second_occurrence_wins
    (opts : List CmdLineOption) (exe t1 v1 t2 v2 : String) (o : CmdLineOption)
    (a1 a2 : CmdArgumentValue)
    (hflag1 : (isLongTok t1 || isShortTok t1) = true)
    (hres1 : getSupportedOption opts (tokText t1) (isLongTok t1) = some o)
    (hflag2 : (isLongTok t2 || isShortTok t2) = true)
    (hres2 : getSupportedOption opts (tokText t2) (isLongTok t2) = some o)
    (hnv : o.value_type ≠ CmdOptionValueType.NoValue)
    (hv1 : coerceValue o.value_type v1 = some a1)
    (hv2 : coerceValue o.value_type v2 = some a2) :
    ∃ store : Store,
      Commander.init_with ⟨opts, []⟩ [exe, t1, v1, t2, v2] = some (⟨opts, store⟩, []) ∧
      storeGet store o.shortform = some ⟨o.shortform, a2⟩ ∧
      countKey store o.shortform = 1 := by
  refine ⟨storeInsert (storeInsert [("__exec__", ⟨"__exec__", CmdArgumentValue.String exe⟩)]
      o.shortform ⟨o.shortform, a1⟩) o.shortform ⟨o.shortform, a2⟩, ?_, ?_, ?_⟩
  · simp [Commander.init_with, addExecutableArg, storeInsert, parseLoop,
      hflag1, hres1, hflag2, hres2, hnv, hv1, hv2]
  · exact storeGet_storeInsert_self _ _ _
  · rw [countKey_storeInsert, countKey_storeInsert]
    by_cases h : "__exec__" = o.shortform <;>
      · have h' : ("__exec__" == o.shortform) = decide ("__exec__" = o.shortform) := rfl
        simp [countKey, List.filter, h', h]

/-- C7 witness: `-x 1 --ex 2` on a `Number` option `x`/`ex` leaves one
entry for `"x"` holding `2`. -/
theorem C7_witness :
    ∃ store : Store,
      Commander.init_with ⟨[⟨"x", "ex", "d", CmdOptionValueType.Number⟩], []⟩
          ["exec", "-x", "1", "--ex", "2"] =
        some (⟨[⟨"x", "ex", "d", CmdOptionValueType.Number⟩], store⟩, []) ∧
      storeGet store "x" = some ⟨"x", CmdArgumentValue.Number 2⟩ ∧
      countKey store "x" = 1 :=
  C7_second_occurrence_wins [⟨"x", "ex", "d", CmdOptionValueType.Number⟩]
    "exec" "-x" "1" "--ex" "2" ⟨"x", "ex", "d", CmdOptionValueType.Number⟩
    (CmdArgumentValue.Number 1) (CmdArgumentValue.Number 2)
    (by decide) (by decide) (by decide) (by decide) (by decide) (by decide) (by decide)

/-! Store invariant through parsing -/

/-- Invariant of the argument store: every entry's `option` field equals
its key, and the key is the executable sentinel (carrying the executable
path) or the short form of a registered option whose declared type the
stored value matches (up to the documented `NoValue` degradation). -/
def StoreInv (opts : List CmdLineOption) (exe : String) (store : Store) : Prop :=
  ∀ p ∈ store, p.2.option = p.1 ∧
    ((p.1 = "__exec__" ∧ p.2.value = CmdArgumentValue.String exe) ∨
     ∃ o ∈ opts, o.shortform = p.1 ∧
       (p.2.value = CmdArgumentValue.NoValue ∨ p.2.value.tag = o.value_type))

/-- The parser's inserts preserve the store invariant. -/
theorem StoreInv.insert {opts : List CmdLineOption} {exe : String} {store : Store}
    {o : CmdLineOption} {val : CmdArgumentValue}
    (h : StoreInv opts exe store) (hmem : o ∈ opts)
    (hval : val = CmdArgumentValue.NoValue ∨ val.tag = o.value_type) :
    StoreInv opts exe (storeInsert store o.shortform ⟨o.shortform, val⟩) := by
  intro p hp
  rcases mem_storeInsert hp with rfl | hp'
  · exact ⟨rfl, Or.inr ⟨o, hmem, rfl, hval⟩⟩
  · exact h p hp'

/-- A completed run of the parse loop preserves the store invariant. -/
theorem parseLoop_inv (opts : List CmdLineOption) (exe : String) :
    ∀ (toks : List String) (store : Store) (diags : List String)
      (store' : Store) (diags' : List String),
      StoreInv opts exe store →
      parseLoop opts toks store diags = some (store', diags') →
      StoreInv opts exe store'
  | [], store, diags, store', diags', hinv, h => by
      simp [parseLoop] at h
      rw [← h.1]
      exact hinv
  | tok :: rest, store, diags, store', diags', hinv, h => by
      by_cases hflag : (isLongTok tok || isShortTok tok) = true
      · cases hres : getSupportedOption opts (tokText tok) (isLongTok tok) with
        | none =>
            rw [parseLoop_unmatched_flag opts tok rest store diags hflag hres] at h
            exact parseLoop_inv opts exe rest store _ store' diags' hinv h
        | some o =>
            have hmem : o ∈ opts := List.mem_of_find?_eq_some hres
            by_cases hnv : o.value_type = CmdOptionValueType.NoValue
            · have hstep : parseLoop opts (tok :: rest) store diags =
                  parseLoop opts rest
                    (storeInsert store o.shortform ⟨o.shortform, CmdArgumentValue.NoValue⟩)
                    diags := by
                simp [parseLoop, hflag, hres, hnv]
              rw [hstep] at h
              exact parseLoop_inv opts exe rest _ diags store' diags'
                (hinv.insert hmem (Or.inl rfl)) h
            · cases rest with
              | nil =>
                  have hstep : parseLoop opts [tok] store diags =
                      some (storeInsert store o.shortform
                              ⟨o.shortform, CmdArgumentValue.NoValue⟩, diags) := by
                    simp [parseLoop, hflag, hres, hnv]
                  rw [hstep] at h
                  simp at h
                  rw [← h.1]
                  exact hinv.insert hmem (Or.inl rfl)
              | cons v rest2 =>
                  cases hco : coerceValue o.value_type v with
                  | none =>
                      have hstep : parseLoop opts (tok :: v :: rest2) store diags = none := by
                        simp [parseLoop, hflag, hres, hnv, hco]
                      rw [hstep] at h
                      cases h
                  | some cv =>
                      have hstep : parseLoop opts (tok :: v :: rest2) store diags =
                          parseLoop opts rest2
                            (storeInsert store o.shortform ⟨o.shortform, cv⟩) diags := by
                        simp [parseLoop, hflag, hres, hnv, hco]
                      rw [hstep] at h
                      exact parseLoop_inv opts exe rest2 _ diags store' diags'
                        (hinv.insert hmem (Or.inr (coerceValue_tag hco))) h
      · have hl : isLongTok tok = false := by
          cases h' : isLongTok tok
          · rfl
          · exact absurd (by simp [h']) hflag
        have hs : isShortTok tok = false := by
          cases h' : isShortTok tok
          · rfl
          · exact absurd (by simp [h']) hflag
        rw [parseLoop_bare_value opts tok rest store diags hl hs] at h
        exact parseLoop_inv opts exe rest store _ store' diags' hinv h

/-- A successful `init` run: the registry is unchanged and the resulting
store satisfies the invariant for the executable path `exe`. -/
theorem init_with_some {opts : List CmdLineOption} {exe : String} {rest : List String}
    {c' : Commander} {diags : List String}
    (h : Commander.init_with ⟨opts, []⟩ (exe :: rest) = some (c', diags)) :
    c'.options = opts ∧ StoreInv opts exe c'.args := by
  have hinv0 : StoreInv opts exe [("__exec__", ⟨"__exec__", CmdArgumentValue.String exe⟩)] := by
    intro p hp
    simp at hp
    rw [hp]
    exact ⟨rfl, Or.inl ⟨rfl, rfl⟩⟩
  simp only [Commander.init_with, addExecutableArg, storeInsert, List.drop_succ_cons,
    List.drop_zero] at h
  cases hpl : parseLoop opts rest [("__exec__", ⟨"__exec__", CmdArgumentValue.String exe⟩)] [] with
  | none => rw [hpl] at h; cases h
  | some pr =>
      obtain ⟨store2, diags2⟩ := pr
      rw [hpl] at h
      simp at h
      rw [← h.1]
      exact ⟨rfl, parseLoop_inv opts exe rest _ [] store2 diags2 hinv0 hpl⟩

/-- C10. After a successful `init` run every store entry's `option` field
equals its key, and the key is the `"__exec__"` sentinel holding the
executable path as a `String`, or the short form of some registered
option. -/
theorem C10_store_key_invariant
    (opts : List CmdLineOption) (exe : String) (rest : List String)
    (c' : Commander) (diags : List String)
    (h : Commander.init_with ⟨opts, []⟩ (exe :: rest) = some (c', diags)) :
    ∀ p ∈ c'.args, p.2.option = p.1 ∧
      ((p.1 = "__exec__" ∧ p.2.value = CmdArgumentValue.String exe) ∨
        ∃ o ∈ opts, o.shortform = p.1) := by
  obtain ⟨-, hinv⟩ := init_with_some h
  intro p hp
  obtain ⟨h1, h2⟩ := hinv p hp
  refine ⟨h1, ?_⟩
  rcases h2 with h2 | ⟨o, ho, hs, -⟩
  · exact Or.inl h2
  · exact Or.inr ⟨o, ho, hs⟩

/-- C10 witness: the sentinel entry of a zero-flag run satisfies the
invariant. -/
theorem C10_witness :
    ((⟨"__exec__", CmdArgumentValue.String "exec"⟩ : CmdArgument).option = "__exec__") ∧
    ((("__exec__" : String) = "__exec__" ∧
        (⟨"__exec__", CmdArgumentValue.String "exec"⟩ : CmdArgument).value =
          CmdArgumentValue.String "exec") ∨
      ∃ o ∈ ([] : List CmdLineOption), o.shortform = "__exec__") :=
  C10_store_key_invariant [] "exec" []
    ⟨[], [("__exec__", ⟨"__exec__", CmdArgumentValue.String "exec"⟩)]⟩ [] (by decide)
    ("__exec__", ⟨"__exec__", CmdArgumentValue.String "exec"⟩) (List.mem_singleton.mpr rfl)

/-- C5 counterexample: two options share the short form `x`, the earlier
added one typed `String`, the later one (long form `why`) typed `Float`.
The registry built by the two `add_option` calls keeps both, `x` resolves
to the `String`-typed option, yet after parsing `--why 1.5` the getter
`get_float_option "x" false` returns a value instead of the claimed
absent. -/
theorem C5_counterexample :
    runAdds [⟨"x", "ex", "d1", CmdOptionValueType.String⟩,
             ⟨"x", "why", "d2", CmdOptionValueType.Float⟩] =
      ⟨[⟨"x", "ex", "d1", CmdOptionValueType.String⟩,
        ⟨"x", "why", "d2", CmdOptionValueType.Float⟩], []⟩ ∧
    (Commander.init_with
        ⟨[⟨"x", "ex", "d1", CmdOptionValueType.String⟩,
          ⟨"x", "why", "d2", CmdOptionValueType.Float⟩], []⟩
        ["exec", "--why", "1.5"]).map
        (fun r => (r.1.get_supported_option "x" false, r.1.get_float_option "x" false)) =
      some (some ⟨"x", "ex", "d1", CmdOptionValueType.String⟩, some "1.5") := by
  constructor
  · have e1 : addOptionList [] ⟨"x", "ex", "d1", CmdOptionValueType.String⟩ =
        [⟨"x", "ex", "d1", CmdOptionValueType.String⟩] := by
      simp [addOptionList]
    have e2 : addOptionList [⟨"x", "ex", "d1", CmdOptionValueType.String⟩]
        ⟨"x", "why", "d2", CmdOptionValueType.Float⟩ =
        [⟨"x", "ex", "d1", CmdOptionValueType.String⟩,
         ⟨"x", "why", "d2", CmdOptionValueType.Float⟩] := by
      apply List.mergeSort_of_sorted
      simp [List.pairwise_cons, optionLE]
    simp [runAdds, Commander.add_option, Commander.new, e1, e2]
  · decide

/-- C5 (amended). Each typed getter is absent when the token matches no
registered option, absent when the resolved option's canonical name has
no store entry, and otherwise returns the stored value exactly when its
variant tag matches the accessor's type; the in-particular consequence
holds for the float accessor of a `String`-registered option whenever no
other registered option shares its short form with a different type
(without that proviso the claim fails, see the counterexample). -/
theorem C5_typed_getter_contract :
    (∀ (c : Commander) (tok : String) (f : Bool),
      c.get_supported_option tok f = none →
      c.get_string_option tok f = none ∧ c.get_number_option tok f = none ∧
        c.get_float_option tok f = none) ∧
    (∀ (c : Commander) (tok : String) (f : Bool) (o : CmdLineOption),
      c.get_supported_option tok f = some o →
      storeGet c.args o.shortform = none →
      c.get_string_option tok f = none ∧ c.get_number_option tok f = none ∧
        c.get_float_option tok f = none) ∧
    (∀ (c : Commander) (tok : String) (f : Bool) (o : CmdLineOption) (arg : CmdArgument),
      c.get_supported_option tok f = some o →
      storeGet c.args o.shortform = some arg →
      (arg.value.tag ≠ CmdOptionValueType.String → c.get_string_option tok f = none) ∧
      (arg.value.tag ≠ CmdOptionValueType.Number → c.get_number_option tok f = none) ∧
      (arg.value.tag ≠ CmdOptionValueType.Float → c.get_float_option tok f = none) ∧
      (∀ v, arg.value = CmdArgumentValue.String v → c.get_string_option tok f = some v) ∧
      (∀ n, arg.value = CmdArgumentValue.Number n → c.get_number_option tok f = some n) ∧
      (∀ v, arg.value = CmdArgumentValue.Float v → c.get_float_option tok f = some v)) ∧
    (∀ (opts : List CmdLineOption) (exe : String) (rest : List String)
        (c' : Commander) (diags : List String) (tok : String) (f : Bool) (o : CmdLineOption),
      Commander.init_with ⟨opts, []⟩ (exe :: rest) = some (c', diags) →
      getSupportedOption opts tok f = some o →
      (∀ o' ∈ opts, o'.shortform = o.shortform →
        o'.value_type = CmdOptionValueType.String) →
      c'.get_float_option tok f = none) := by
  refine ⟨?_, ?_, ?_, ?_⟩
  · intro c tok f h
    refine ⟨?_, ?_, ?_⟩ <;>
      simp [Commander.get_string_option, Commander.get_number_option,
        Commander.get_float_option, h]
  · intro c tok f o h1 h2
    refine ⟨?_, ?_, ?_⟩ <;>
      simp [Commander.get_string_option, Commander.get_number_option,
        Commander.get_float_option, h1, h2]
  · intro c tok f o arg h1 h2
    refine ⟨?_, ?_, ?_, ?_, ?_, ?_⟩
    · intro hne
      cases hv : arg.value with
      | String s => exact absurd (by rw [hv] ; rfl) hne
      | _ =>
          simp [Commander.get_string_option, h1, h2, hv]
    · intro hne
      cases hv : arg.value with
      | Number n => exact absurd (by rw [hv] ; rfl) hne
      | _ =>
          simp [Commander.get_number_option, h1, h2, hv]
    · intro hne
      cases hv : arg.value with
      | Float v => exact absurd (by rw [hv] ; rfl) hne
      | _ =>
          simp [Commander.get_float_option, h1, h2, hv]
    · intro v hv
      simp [Commander.get_string_option, h1, h2, hv]
    · intro n hv
      simp [Commander.get_number_option, h1, h2, hv]
    · intro v hv
      simp [Commander.get_float_option, h1, h2, hv]
  · intro opts exe rest c' diags tok f o h1 h2 h3
    obtain ⟨hopts, hinv⟩ := init_with_some h1
    have hres : c'.get_supported_option tok f = some o := by
      rw [Commander.get_supported_option, hopts]
      exact h2
    cases hsg : storeGet c'.args o.shortform with
    | none => simp [Commander.get_float_option, hres, hsg]
    | some arg =>
        obtain ⟨-, h4⟩ := hinv _ (storeGet_mem hsg)
        have hnotfloat : ∀ v, arg.value ≠ CmdArgumentValue.Float v := by
          rcases h4 with ⟨-, hval⟩ | ⟨o', ho', hs', hval⟩
          · intro v hv
            rw [hv] at hval
            cases hval
          · rcases hval with hval | hval
            · intro v hv
              rw [hv] at hval
              cases hval
            · rw [h3 o' ho' hs'] at hval
              intro v hv
              rw [hv] at hval
              simp [CmdArgumentValue.tag] at hval
        cases hv : arg.value with
        | Float v => exact absurd hv (hnotfloat v)
        | _ => simp [Commander.get_float_option, hres, hsg, hv]

/-- C5 witness: concrete instances of all four getter-contract clauses. -/
theorem C5_witness :
    (Commander.new.get_string_option "q" false = none ∧
      Commander.new.get_number_option "q" false = none ∧
      Commander.new.get_float_option "q" false = none) ∧
    ((⟨[⟨"f", "file", "d", CmdOptionValueType.String⟩], []⟩ :
        Commander).get_string_option "f" false = none ∧
      (⟨[⟨"f", "file", "d", CmdOptionValueType.String⟩], []⟩ :
        Commander).get_number_option "f" false = none ∧
      (⟨[⟨"f", "file", "d", CmdOptionValueType.String⟩], []⟩ :
        Commander).get_float_option "f" false = none) ∧
    ((⟨[⟨"f", "file", "d", CmdOptionValueType.String⟩],
        [("f", ⟨"f", CmdArgumentValue.String "t.txt"⟩)]⟩ :
        Commander).get_float_option "f" false = none) ∧
    ((⟨[⟨"f", "file", "d", CmdOptionValueType.String⟩],
        [("f", ⟨"f", CmdArgumentValue.String "t.txt"⟩)]⟩ :
        Commander).get_string_option "f" false = some "t.txt") ∧
    ((⟨[⟨"f", "file", "d", CmdOptionValueType.String⟩],
        [("__exec__", ⟨"__exec__", CmdArgumentValue.String "exec"⟩),
         ("f", ⟨"f", CmdArgumentValue.String "t.txt"⟩)]⟩ :
        Commander).get_float_option "f" false = none) :=
  ⟨C5_typed_getter_contract.1 Commander.new "q" false (by decide),
   C5_typed_getter_contract.2.1
     ⟨[⟨"f", "file", "d", CmdOptionValueType.String⟩], []⟩ "f" false
     ⟨"f", "file", "d", CmdOptionValueType.String⟩ (by decide) (by decide),
   ((C5_typed_getter_contract.2.2.1
     ⟨[⟨"f", "file", "d", CmdOptionValueType.String⟩],
       [("f", ⟨"f", CmdArgumentValue.String "t.txt"⟩)]⟩ "f" false
     ⟨"f", "file", "d", CmdOptionValueType.String⟩
     ⟨"f", CmdArgumentValue.String "t.txt"⟩ (by decide) (by decide)).2.2.1 (by decide)),
   ((C5_typed_getter_contract.2.2.1
     ⟨[⟨"f", "file", "d", CmdOptionValueType.String⟩],
       [("f", ⟨"f", CmdArgumentValue.String "t.txt"⟩)]⟩ "f" false
     ⟨"f", "file", "d", CmdOptionValueType.String⟩
     ⟨"f", CmdArgumentValue.String "t.txt"⟩ (by decide) (by decide)).2.2.2.1 "t.txt" rfl),
   C5_typed_getter_contract.2.2.2 [⟨"f", "file", "d", CmdOptionValueType.String⟩]
     "exec" ["-f", "t.txt"]
     ⟨[⟨"f", "file", "d", CmdOptionValueType.String⟩],
       [("__exec__", ⟨"__exec__", CmdArgumentValue.String "exec"⟩),
        ("f", ⟨"f", CmdArgumentValue.String "t.txt"⟩)]⟩ [] "f" false
     ⟨"f", "file", "d", CmdOptionValueType.String⟩
     (by decide) (by decide) (by decide)⟩

/-! Registry sorting -/

/-- The short-form comparator is transitive. -/
theorem optionLE_trans (a b c : CmdLineOption)
    (h1 : optionLE a b = true) (h2 : optionLE b c = true) : optionLE a c = true := by
  simp [optionLE] at h1 h2 ⊢
  exact le_trans h1 h2

/-- The short-form comparator is total. -/
theorem optionLE_total (a b : CmdLineOption) : (optionLE a b || optionLE b a) = true := by
  simp [optionLE]
  exact le_total _ _

/-- The option list is sorted by short form after every `add_option`. -/
theorem addOptionList_sorted (opts : List CmdLineOption) (o : CmdLineOption) :
    (addOptionList opts o).Pairwise (fun a b => optionLE a b = true) :=
  List.sorted_mergeSort optionLE_trans optionLE_total _

/-- Folding `add_option` calls over a sorted accumulator keeps the registry
sorted. -/
theorem foldl_addOptionList_sorted :
    ∀ (calls : List CmdLineOption) (acc : List CmdLineOption),
      acc.Pairwise (fun a b => optionLE a b = true) →
      (calls.foldl addOptionList acc).Pairwise (fun a b => optionLE a b = true)
  | [], _, h => h
  | c :: cs, acc, _ => foldl_addOptionList_sorted cs (addOptionList acc c) (addOptionList_sorted acc c)

/-- One `add_option` call grows the registry by exactly one entry. -/
theorem addOptionList_length (opts : List CmdLineOption) (o : CmdLineOption) :
    (addOptionList opts o).length = opts.length + 1 := by
  simp [addOptionList]

/-- The registry length after a fold of `add_option` calls. -/
theorem foldl_addOptionList_length :
    ∀ (calls : List CmdLineOption) (acc : List CmdLineOption),
      (calls.foldl addOptionList acc).length = acc.length + calls.length
  | [], _ => by simp
  | c :: cs, acc => by
      rw [List.foldl_cons, foldl_addOptionList_length cs (addOptionList acc c),
        addOptionList_length]
      simp
      omega

/-- Unfolding of `runAdds` into the pure option-list fold with an untouched store. -/
theorem runAdds_foldl :
    ∀ (calls : List CmdLineOption) (c : Commander),
      calls.foldl
        (fun c o => c.add_option o.shortform o.longform o.description o.value_type) c =
      ⟨calls.foldl addOptionList c.options, c.args⟩
  | [], _ => rfl
  | o :: os, c => runAdds_foldl os (c.add_option o.shortform o.longform o.description o.value_type)

/-- C6. After any sequence of `add_option` calls in any order, the registry
is sorted ascending by short form, and `option_count` equals the number of
calls, duplicates included. -/
theorem C6_registry_sorted_and_counted (calls : List CmdLineOption) :
    (runAdds calls).options.Pairwise (fun a b => a.shortform ≤ b.shortform) ∧
    (runAdds calls).option_count = calls.length := by
  have h : runAdds calls = ⟨calls.foldl addOptionList [], []⟩ :=
    runAdds_foldl calls Commander.new
  constructor
  · rw [h]
    exact (foldl_addOptionList_sorted calls [] List.Pairwise.nil).imp
      (fun hab => by simpa [optionLE] using hab)
  · rw [Commander.option_count, h]
    simpa using foldl_addOptionList_length calls []

/-- First-match search: `find?` returns the head of the filtered list. -/
theorem find?_eq_filter_head? {α : Type} (p : α → Bool) (l : List α) :
    l.find? p = (l.filter p).head? := by
  induction l with
  | nil => rfl
  | cons a l ih =>
      by_cases h : p a = true
      · rw [List.find?_cons_of_pos l h, List.filter_cons_of_pos h, List.head?_cons]
      · rw [List.find?_cons_of_neg l h, List.filter_cons_of_neg h, ih]

/-- Stability of the registry sort: filtering by a class of mutually tied
elements commutes with `mergeSort`. -/
theorem filter_mergeSort_tied (p : CmdLineOption → Bool)
    (htied : ∀ a b, p a = true → p b = true → optionLE a b = true)
    (l : List CmdLineOption) :
    (l.mergeSort optionLE).filter p = l.filter p := by
  have hsub : (l.filter p).Sublist (l.mergeSort optionLE) :=
    List.sublist_mergeSort optionLE_trans optionLE_total
      (List.pairwise_of_forall_mem_list
        (fun a ha b hb => htied a b (List.of_mem_filter ha) (List.of_mem_filter hb)))
      (List.filter_sublist l)
  have hsub2 : ((l.filter p).filter p).Sublist ((l.mergeSort optionLE).filter p) :=
    hsub.filter p
  have hff : (l.filter p).filter p = l.filter p := by
    rw [List.filter_filter]
    simp
  rw [hff] at hsub2
  have hperm : ((l.mergeSort optionLE).filter p).Perm (l.filter p) :=
    (List.mergeSort_perm l optionLE).filter p
  exact (hsub2.eq_of_length hperm.length_eq.symm).symm

/-- The options of the built registry filtered by a tied class equal the
calls filtered the same way, in insertion order. -/
theorem filter_foldl_addOptionList (p : CmdLineOption → Bool)
    (htied : ∀ a b, p a = true → p b = true → optionLE a b = true) :
    ∀ (calls : List CmdLineOption) (acc : List CmdLineOption),
      (calls.foldl addOptionList acc).filter p = acc.filter p ++ calls.filter p
  | [], acc => by simp
  | c :: cs, acc => by
      rw [List.foldl_cons, filter_foldl_addOptionList p htied cs (addOptionList acc c),
        addOptionList, filter_mergeSort_tied p htied, List.filter_append]
      by_cases h : p c = true <;> simp [List.filter_cons, h]

/-- C8. When several registered options share a short form, short-form
resolution (and hence every typed getter) returns the earliest-added one:
lookup over the registry built by any sequence of `add_option` calls
coincides with first-match search in insertion order. -/
theorem C8_duplicate_shortforms_resolve_to_earliest
    (calls : List CmdLineOption) (s : String) :
    (runAdds calls).get_supported_option s false =
      calls.find? (fun o => o.shortform == s) := by
  have h : runAdds calls = ⟨calls.foldl addOptionList [], []⟩ :=
    runAdds_foldl calls Commander.new
  rw [Commander.get_supported_option, h, getSupportedOption]
  have hpred : matchesOption s false = fun o => o.shortform == s := by
    funext o
    simp [matchesOption]
  rw [hpred, find?_eq_filter_head?, find?_eq_filter_head?]
  have htied : ∀ a b : CmdLineOption, (a.shortform == s) = true →
      (b.shortform == s) = true → optionLE a b = true := by
    intro a b ha hb
    rw [beq_iff_eq] at ha hb
    simp [optionLE, ha, hb]
  have := filter_foldl_addOptionList _ htied calls []
  simp only [this]
  simp

/-! Help rendering -/

/-- The help line of one option as the source's three `push_str` pieces
concatenate it (with the source's `"[no paramater]"` tag spelling). -/
def helpLine (o : CmdLineOption) : String :=
  ("\t--" ++ o.longform ++ ", -" ++ o.shortform) ++ typeTag o.value_type ++
    ("\t\t" ++ o.description ++ "\n")

/-- The bracketed type tag exactly as the claim words it, with
`"[no parameter]"` for `NoValue`. -/
def typeTagClaim : CmdOptionValueType → String
  | .String => "\t\t[string]"
  | .Float => "\t\t[Float]"
  | .Number => "\t\t[Number]"
  | .NoValue => "\t\t[no parameter]"

/-- The help line of one option as the claim words it. -/
def helpLineClaim (o : CmdLineOption) : String :=
  ("\t--" ++ o.longform ++ ", -" ++ o.shortform) ++ typeTagClaim o.value_type ++
    ("\t\t" ++ o.description ++ "\n")

/-- Concatenation of a list of lines. -/
def joinLines (lines : List String) : String :=
  lines.foldr (fun a b => a ++ b) ""

/-- The fold in `help` appends one `helpLine` per option to its
accumulator. -/
theorem help_foldl :
    ∀ (opts : List CmdLineOption) (init : String),
      opts.foldl
        (fun output option =>
          ((output ++ ("\t--" ++ option.longform ++ ", -" ++ option.shortform))
              ++ typeTag option.value_type)
            ++ ("\t\t" ++ option.description ++ "\n")) init =
      init ++ joinLines (opts.map helpLine)
  | [], init => by simp [joinLines]
  | o :: os, init => by
      rw [List.foldl_cons, help_foldl os _]
      show _ = init ++ joinLines (helpLine o :: os.map helpLine)
      have hjoin : joinLines (helpLine o :: os.map helpLine) =
          helpLine o ++ joinLines (os.map helpLine) := rfl
      rw [hjoin, helpLine]
      simp [String.append_assoc]

/-- C3 counterexample: on a registry with one `NoValue` option the help
output is the source's line with the `"[no paramater]"` tag, which differs
from the line the claim prescribes with `"[no parameter]"`. -/
theorem C3_counterexample :
    runAdds [⟨"v", "version", "Show version", CmdOptionValueType.NoValue⟩] =
      ⟨[⟨"v", "version", "Show version", CmdOptionValueType.NoValue⟩], []⟩ ∧
    Commander.help ⟨[⟨"v", "version", "Show version", CmdOptionValueType.NoValue⟩], []⟩ =
      "Options available:\n\t--version, -v\t\t[no paramater]\t\tShow version\n" ∧
    Commander.help ⟨[⟨"v", "version", "Show version", CmdOptionValueType.NoValue⟩], []⟩ ≠
      "Options available:\n" ++
        joinLines ([⟨"v", "version", "Show version", CmdOptionValueType.NoValue⟩].map
          helpLineClaim) := by
  refine ⟨?_, by decide, by decide⟩
  have e1 : addOptionList [] ⟨"v", "version", "Show version", CmdOptionValueType.NoValue⟩ =
      [⟨"v", "version", "Show version", CmdOptionValueType.NoValue⟩] := by
    simp [addOptionList]
  simp [runAdds, Commander.add_option, Commander.new, e1]

/-- C3 (amended). For every registry built by `add_option` calls, `help`
is the header line `"Options available:"` (with line break) followed by
exactly one `helpLine` per registered option in the registry's short-form
sorted order — where the `NoValue` tag is spelled `"[no paramater]"` as in
the source, not `"[no parameter]"`. -/
theorem C3_help_renders_one_line_per_option (calls : List CmdLineOption) :
    Commander.help (runAdds calls) =
      "Options available:\n" ++ joinLines ((runAdds calls).options.map helpLine) := by
  rw [Commander.help, help_foldl]
